import Mathlib

/-!
# gcc-pi-led-shift: the MCP23017 LED shifter

A shallow embedding of `gcc-pi-led-shift.c`.  The program talks to the outside
world through `open`, `ioctl`, `write`, `putchar`, `printf`, `usleep`, `close`
and `exit`; every such call is recorded, in program order, as an `Event` of a
trace.  What the channel answers is given by an `Env`.
-/

namespace LedShift

/-! ## Constants of the source (`#define`) -/

/-- Source: `#define DEVICE "/dev/i2c-1"`. -/
def DEVICE : String := "/dev/i2c-1"
/-- Source: `#define ADDRESS 0x20`. -/
def ADDRESS : Nat := 0x20
/-- Source: `#define IODIRA 0x00`. -/
def IODIRA : Nat := 0x00
/-- Source: `#define GPIOA 0x12`. -/
def GPIOA : Nat := 0x12
/-- Source: `#define IODIRx IODIRA`, the active data direction register. -/
def IODIRx : Nat := IODIRA
/-- Source: `#define GPIOx GPIOA`, the active data register. -/
def GPIOx : Nat := GPIOA
/-- Source: `#define DELAY 200000`. -/
def DELAY : Nat := 200000
/-- Source: `#define LIMIT 2`. -/
def LIMIT : Nat := 2
/-- Source: `#define PATTERN 0x01`. -/
def PATTERN : Nat := 0x01
/-- Source: `#define SHIFT 1`. -/
def SHIFT : Nat := 1
/-- Source: `sizeof(data)` for `unsigned char data`. -/
def sizeofData : Nat := 1

/-! ## The outside world -/

/-- One call that leaves the program, with its arguments. -/
inductive Event where
  | sysOpen (path : String)
  | sysIoctl (fd : Int) (addr : Nat)
  | sysWrite (fd : Int) (bytes : List Nat)
  | putchar (c : Char)
  | printf (s : String)
  | usleep (usec : Nat)
  | sysClose (fd : Int)
  deriving DecidableEq, Repr

/-- What the channel answers: the descriptor `open` returns (an `int`), the value
`ioctl` returns (an `int`), and the count the `k`-th call of `write` (counted
from 0) returns (an `ssize_t`, which may be wider than `int`). -/
structure Env where
  openResult : Int
  ioctlResult : Int
  writeResult : Nat → Int

/-- The local variables of `main` that outlive a statement, and the trace so
far.  `data` and `buf` are uninitialised in the source; they are read only
after they have been assigned, so their initial value here is immaterial. -/
structure Machine where
  bytes : Int
  data : Nat
  fd : Int
  buf : List Nat
  trace : List Event
  deriving DecidableEq, Repr

/-- The machine at the entry of `main`: `int bytes = 0`, `unsigned char buf[10]`,
nothing done yet. -/
def Machine.initial : Machine :=
  { bytes := 0, data := 0, fd := 0, buf := List.replicate 10 0, trace := [] }

/-- A point of the execution: still running, or terminated with a status. -/
inductive Result where
  | running (m : Machine)
  | exited (status : Int) (m : Machine)
  deriving DecidableEq, Repr

/-- Sequencing: nothing runs after the process has terminated. -/
def Result.andThen (r : Result) (f : Machine → Result) : Result :=
  match r with
  | .running m => f m
  | .exited s m => .exited s m

/-- The trace of a result. -/
def Result.trace : Result → List Event
  | .running m => m.trace
  | .exited _ m => m.trace

/-- The exit status of a result, when the process has terminated. -/
def Result.status : Result → Option Int
  | .running _ => none
  | .exited s _ => some s

/-- Record one event. -/
def emit (e : Event) (m : Machine) : Machine :=
  { m with trace := m.trace ++ [e] }

/-- The payloads of the `write` calls of a trace, in order. -/
def writesOf (t : List Event) : List (List Nat) :=
  t.filterMap fun e => match e with
    | .sysWrite _ bs => some bs
    | _ => none

/-- The text on standard output of a trace. -/
def console (t : List Event) : List Char :=
  t.flatMap fun e => match e with
    | .putchar c => [c]
    | .printf s => s.toList
    | _ => []

/-! ## `dumpbin` -/

/-- Source: `for(count = hi; count >= lo; count--) putchar('0' + ((byte >> count) & 1));`
the loop of `dumpbin`, entered with the current `count`. -/
def dumpbinLoop (byte : Nat) (lo : Int) (count : Int) (m : Machine) : Machine :=
  if count >= lo then
    dumpbinLoop byte lo (count - 1)
      (emit (.putchar (Char.ofNat (48 + ((byte >>> count.toNat) &&& 1)))) m)
  else m
termination_by (count - lo + 1).toNat
decreasing_by omega

/-- Source: `void dumpbin(unsigned char byte)`. -/
def dumpbin (byte : Nat) (m : Machine) : Machine :=
  let m := dumpbinLoop byte 4 7 m
  let m := emit (.putchar ' ') m
  let m := dumpbinLoop byte 0 3 m
  emit (.putchar ' ') m

/-! ## `main` -/

/-- Source: `data << SHIFT | data >> (sizeof(data)*8 - SHIFT)` assigned to the
`unsigned char data`: the operands are promoted to `int`, the result is
truncated to 8 bits. -/
def rotateLeft (data : Nat) : Nat :=
  ((data <<< SHIFT) ||| (data >>> (sizeofData * 8 - SHIFT))) % 256

/-- Source: `data >> SHIFT | data << (sizeof(data)*8 - SHIFT)` assigned to the
`unsigned char data`. -/
def rotateRight (data : Nat) : Nat :=
  ((data >>> SHIFT) ||| (data <<< (sizeofData * 8 - SHIFT))) % 256

/-- The value an `int` holds of a wider count: the low 32 bits, read as a signed
number. -/
def toInt32 (x : Int) : Int := (x + 2 ^ 31) % 2 ^ 32 - 2 ^ 31

/-- Source: `if ((write(fd, buf, bytes)) != bytes) { printf("Error writing data\n"); exit(1); }`.
The call sends the first `bytes` bytes of `buf`.  The source includes no
`<unistd.h>` and declares `write` nowhere, so the call is to an implicitly
declared function returning `int`: the value compared with `bytes` is the
answer of the channel to this call, cut to 32 bits. -/
def checkedWrite (env : Env) (m : Machine) : Result :=
  let r := toInt32 (env.writeResult (writesOf m.trace).length)
  let m1 := emit (.sysWrite m.fd (m.buf.take m.bytes.toNat)) m
  if r ≠ m.bytes then
    .exited 1 (emit (.printf "Error writing data\n") m1)
  else .running m1

/-- Source: lines 133-143, `for (count = 0; count < 7; count++) { ... }` with
the left rotation, entered with the current `count`. -/
def leftSweep (env : Env) (count : Nat) (m : Machine) : Result :=
  if count < 7 then
    (checkedWrite env { m with buf := m.buf.set 1 m.data }).andThen fun m =>
      let m := dumpbin m.data m
      let m := emit (.printf "\n") m
      let m := { m with data := rotateLeft m.data }
      let m := emit (.usleep DELAY) m
      leftSweep env (count + 1) m
  else .running m
termination_by 7 - count

/-- Source: lines 145-155, `for (count = 0; count < 7; count++) { ... }` with
the right rotation, entered with the current `count`. -/
def rightSweep (env : Env) (count : Nat) (m : Machine) : Result :=
  if count < 7 then
    (checkedWrite env { m with buf := m.buf.set 1 m.data }).andThen fun m =>
      let m := dumpbin m.data m
      let m := emit (.printf "\n") m
      let m := { m with data := rotateRight m.data }
      let m := emit (.usleep DELAY) m
      rightSweep env (count + 1) m
  else .running m
termination_by 7 - count

/-- Source: lines 132-156, `for (loop = 0; loop < LIMIT; loop++) { ... }`,
entered with the current `loop`; the bound is a parameter. -/
def sweeps (env : Env) (limit : Nat) (loop : Nat) (m : Machine) : Result :=
  if loop < limit then
    ((leftSweep env 0 m).andThen fun m => rightSweep env 0 m).andThen fun m =>
      sweeps env limit (loop + 1) m
  else .running m
termination_by limit - loop

/-- Source: `int main(int argc, char **argv)`, with the outer repeat count
`LIMIT` as a parameter. -/
def mainWith (limit : Nat) (env : Env) : Result :=
  let m := Machine.initial
  -- line 107
  let m := emit (.sysOpen DEVICE) m
  let m : Machine := { m with fd := env.openResult }
  if m.fd < 0 then
    .exited 1 (emit (.printf "Failed to open device\n") m)
  else
  -- line 111
  let m := emit (.sysIoctl m.fd ADDRESS) m
  if env.ioctlResult < 0 then
    .exited 1 (emit (.printf "Unable to access device\n") m)
  else
  -- lines 119-125
  let m := { m with bytes := 2 }
  let m := { m with buf := m.buf.set 0 IODIRx }
  let m := { m with buf := m.buf.set 1 0x00 }
  (checkedWrite env m).andThen fun m =>
  -- lines 130-156
  let m := { m with data := PATTERN }
  let m := { m with buf := m.buf.set 0 GPIOx }
  (sweeps env limit 0 m).andThen fun m =>
  -- lines 161-168
  let m := { m with buf := m.buf.set 1 m.data }
  (checkedWrite env m).andThen fun m =>
  let m := dumpbin m.data m
  let m := emit (.printf "\n") m
  let m := emit (.usleep DELAY) m
  -- lines 173-177
  let m := { m with buf := m.buf.set 1 0x00 }
  (checkedWrite env m).andThen fun m =>
  -- lines 182-187
  let m := { m with buf := m.buf.set 0 IODIRx }
  let m := { m with buf := m.buf.set 1 0xFF }
  (checkedWrite env m).andThen fun m =>
  -- lines 188-190
  let m := emit (.sysClose m.fd) m
  .exited 0 m

/-- Source: `main` as compiled, with `LIMIT` = 2. -/
def main (env : Env) : Result := mainWith LIMIT env

/-- The channel on which everything succeeds, with descriptor `fd`. -/
def nominalEnv (fd : Int) : Env :=
  { openResult := fd, ioctlResult := 0, writeResult := fun _ => 2 }

/-- The channel on which only the `k`-th write fails, writing one byte. -/
def failingEnv (fd : Int) (k : Nat) : Env :=
  { openResult := fd, ioctlResult := 0, writeResult := fun j => if j = k then 1 else 2 }

/-- The number of bits set in a byte. -/
def popcount (v : Nat) : Nat :=
  ((List.range 8).filter fun i => v.testBit i).length

/-- The character `dumpbin` prints for bit `i` of `byte`. -/
def bitChar (byte : Nat) (i : Nat) : Char := Char.ofNat (48 + ((byte >>> i) &&& 1))

/-- The ten characters of a rendered byte: bits 7 to 4, a space, bits 3 to 0,
a space. -/
def renderedText (byte : Nat) : List Char :=
  [bitChar byte 7, bitChar byte 6, bitChar byte 5, bitChar byte 4, ' ',
   bitChar byte 3, bitChar byte 2, bitChar byte 1, bitChar byte 0, ' ']

/-- The `putchar` calls of a rendered byte. -/
def rendered (byte : Nat) : List Event :=
  (renderedText byte).map Event.putchar

/-- The text `dumpbin` adds to standard output. -/
def dumpbinText (byte : Nat) : List Char :=
  console ((dumpbin byte Machine.initial).trace)

/-- Reads a byte back from its rendering. -/
def readBack (cs : List Char) : Nat :=
  ((cs.filter fun c => c ≠ ' ').map fun c => if c = '1' then 1 else 0).foldl
    (fun acc d => 2 * acc + d) 0

/-- The events of one step of a sweep: the transfer, the rendering, the newline,
the pause. -/
def stepEvents (fd : Int) (p : Nat) : List Event :=
  .sysWrite fd [GPIOx, p] :: (rendered p ++ [.printf "\n", .usleep DELAY])

/-- The payloads of one outer iteration: the left sweep, then the right sweep. -/
def sweepPayloads : List Nat :=
  [0x01, 0x02, 0x04, 0x08, 0x10, 0x20, 0x40, 0x80, 0x40, 0x20, 0x10, 0x08, 0x04, 0x02]

/-- The payloads of the sweep and final-display transfers, in order. -/
def payloads (limit : Nat) : List Nat :=
  (List.replicate limit sweepPayloads).flatten ++ [PATTERN]

/-- The trace of the run on which every call succeeds. -/
def nominalTrace (limit : Nat) (fd : Int) : List Event :=
  [.sysOpen DEVICE, .sysIoctl fd ADDRESS, .sysWrite fd [IODIRx, 0x00]] ++
    (payloads limit).flatMap (stepEvents fd) ++
    [.sysWrite fd [GPIOx, 0x00], .sysWrite fd [IODIRx, 0xFF], .sysClose fd]

/-- A result meets `P` while running and `Q` once terminated. -/
def Result.Sat (P : Machine → Prop) (Q : Int → Machine → Prop) : Result → Prop
  | .running m => P m
  | .exited s m => Q s m

/-- No `close` has been issued. -/
def NoClose (t : List Event) : Prop := ∀ fd, Event.sysClose fd ∉ t

/-- The `k`-th call of `write` is the first whose answer the program does not
read as 2. -/
def FirstFail (env : Env) (k : Nat) : Prop :=
  (∀ j < k, toInt32 (env.writeResult j) = 2) ∧ toInt32 (env.writeResult k) ≠ 2

/-- The run is under way: `n` transfers done, all of them successful, the
handle still open. -/
def Going (env : Env) (n : Nat) (m : Machine) : Prop :=
  m.bytes = 2 ∧ m.fd = env.openResult ∧ (writesOf m.trace).length = n ∧
    (∀ j < n, toInt32 (env.writeResult j) = 2) ∧ NoClose m.trace

/-- The run was aborted by the first failing transfer, one of the first `bound`:
the trace ends with that transfer and the diagnostic, and no `close` was
issued. -/
def Halted (env : Env) (bound : Nat) (s : Int) (m : Machine) : Prop :=
  s = 1 ∧ NoClose m.trace ∧ ∃ k pre fd bs, k < bound ∧ FirstFail env k ∧
    m.trace = pre ++ [.sysWrite fd bs, .printf "Error writing data\n"] ∧
    (writesOf pre).length = k

/-- The run completed: every one of the `bound` transfers succeeded, the handle
was closed last, and the status is 0. -/
def Completed (env : Env) (bound : Nat) (s : Int) (m : Machine) : Prop :=
  s = 0 ∧ (∀ j < bound, toInt32 (env.writeResult j) = 2) ∧
    ∃ pre, m.trace = pre ++ [.sysClose env.openResult] ∧ NoClose pre ∧
      (writesOf pre).length = bound

/-- The same channel with every write succeeding. -/
def okEnv (env : Env) : Env := { env with writeResult := fun _ => 2 }

/-- The run `r` is the run `r0` on the channel where every write succeeds, or
it is `r0` cut after its first failing transfer, with the diagnostic added. -/
def Cut (r r0 : Result) : Prop :=
  r = r0 ∨ ∃ m pre fd bs, r = .exited 1 m ∧
    m.trace = pre ++ [Event.sysWrite fd bs, Event.printf "Error writing data\n"] ∧
    (pre ++ [Event.sysWrite fd bs]) <+: r0.trace

/-! ## Basic facts -/

theorem toInt32_two : toInt32 2 = 2 := by decide

theorem toInt32_one : toInt32 1 = 1 := by decide

theorem toInt32_of_two (env : Env) (hw : ∀ k, env.writeResult k = 2) :
    ∀ k, toInt32 (env.writeResult k) = 2 := by
  intro k
  rw [hw k]
  exact toInt32_two

theorem toInt32_of_fits (x : Int) (hlo : -2 ^ 31 ≤ x) (hhi : x < 2 ^ 31) : toInt32 x = x := by
  unfold toInt32
  omega

theorem dumpbinLoop_step (byte : Nat) (lo count : Int) (m : Machine) (h : lo ≤ count) :
    dumpbinLoop byte lo count m = dumpbinLoop byte lo (count - 1)
      (emit (.putchar (Char.ofNat (48 + ((byte >>> count.toNat) &&& 1)))) m) := by
  rw [dumpbinLoop, if_pos h]

theorem dumpbinLoop_done (byte : Nat) (lo count : Int) (m : Machine) (h : count < lo) :
    dumpbinLoop byte lo count m = m := by
  rw [dumpbinLoop, if_neg (by omega)]

theorem dumpbin_eq (byte : Nat) (m : Machine) :
    dumpbin byte m = { m with trace := m.trace ++ rendered byte } := by
  unfold dumpbin
  simp only []
  rw [dumpbinLoop_step _ 4 7 _ (by decide), dumpbinLoop_step _ 4 (7 - 1) _ (by decide),
    dumpbinLoop_step _ 4 (7 - 1 - 1) _ (by decide),
    dumpbinLoop_step _ 4 (7 - 1 - 1 - 1) _ (by decide),
    dumpbinLoop_done _ 4 (7 - 1 - 1 - 1 - 1) _ (by decide)]
  rw [dumpbinLoop_step _ 0 3 _ (by decide), dumpbinLoop_step _ 0 (3 - 1) _ (by decide),
    dumpbinLoop_step _ 0 (3 - 1 - 1) _ (by decide),
    dumpbinLoop_step _ 0 (3 - 1 - 1 - 1) _ (by decide),
    dumpbinLoop_done _ 0 (3 - 1 - 1 - 1 - 1) _ (by decide)]
  simp [emit, rendered, renderedText, bitChar]

theorem checkedWrite_ok (env : Env) (m : Machine)
    (h : toInt32 (env.writeResult (writesOf m.trace).length) = m.bytes) :
    checkedWrite env m = .running (emit (.sysWrite m.fd (m.buf.take m.bytes.toNat)) m) := by
  simp [checkedWrite, h]

theorem checkedWrite_fail (env : Env) (m : Machine)
    (h : toInt32 (env.writeResult (writesOf m.trace).length) ≠ m.bytes) :
    checkedWrite env m = .exited 1 (emit (.printf "Error writing data\n")
      (emit (.sysWrite m.fd (m.buf.take m.bytes.toNat)) m)) := by
  simp [checkedWrite, h]

theorem leftSweep_step (env : Env) (count : Nat) (m : Machine) (h : count < 7) :
    leftSweep env count m =
      (checkedWrite env { m with buf := m.buf.set 1 m.data }).andThen fun m =>
        let m := dumpbin m.data m
        let m := emit (.printf "\n") m
        let m := { m with data := rotateLeft m.data }
        let m := emit (.usleep DELAY) m
        leftSweep env (count + 1) m := by
  rw [leftSweep, if_pos h]

theorem leftSweep_done (env : Env) (count : Nat) (m : Machine) (h : 7 ≤ count) :
    leftSweep env count m = .running m := by
  rw [leftSweep, if_neg (by omega)]

theorem rightSweep_step (env : Env) (count : Nat) (m : Machine) (h : count < 7) :
    rightSweep env count m =
      (checkedWrite env { m with buf := m.buf.set 1 m.data }).andThen fun m =>
        let m := dumpbin m.data m
        let m := emit (.printf "\n") m
        let m := { m with data := rotateRight m.data }
        let m := emit (.usleep DELAY) m
        rightSweep env (count + 1) m := by
  rw [rightSweep, if_pos h]

theorem rightSweep_done (env : Env) (count : Nat) (m : Machine) (h : 7 ≤ count) :
    rightSweep env count m = .running m := by
  rw [rightSweep, if_neg (by omega)]

theorem sweeps_step (env : Env) (limit loop : Nat) (m : Machine) (h : loop < limit) :
    sweeps env limit loop m =
      ((leftSweep env 0 m).andThen fun m => rightSweep env 0 m).andThen fun m =>
        sweeps env limit (loop + 1) m := by
  rw [sweeps, if_pos h]

theorem sweeps_done (env : Env) (limit loop : Nat) (m : Machine) (h : limit ≤ loop) :
    sweeps env limit loop m = .running m := by
  rw [sweeps, if_neg (by omega)]

/-! ## The run on which every call succeeds -/

theorem rotateLeft_values : rotateLeft 1 = 2 ∧ rotateLeft 2 = 4 ∧ rotateLeft 4 = 8 ∧
    rotateLeft 8 = 16 ∧ rotateLeft 16 = 32 ∧ rotateLeft 32 = 64 ∧ rotateLeft 64 = 128 := by
  decide

theorem rotateRight_values : rotateRight 2 = 1 ∧ rotateRight 4 = 2 ∧ rotateRight 8 = 4 ∧
    rotateRight 16 = 8 ∧ rotateRight 32 = 16 ∧ rotateRight 64 = 32 ∧ rotateRight 128 = 64 := by
  decide

theorem cycle_nominal (env : Env) (hw : ∀ k, toInt32 (env.writeResult k) = 2)
    (f : Int) (b : Nat) (rest : List Nat) (t : List Event) :
    (leftSweep env 0 ⟨2, 1, f, GPIOx :: b :: rest, t⟩).andThen (rightSweep env 0) =
      .running ⟨2, 1, f, GPIOx :: 2 :: rest, t ++ sweepPayloads.flatMap (stepEvents f)⟩ := by
  simp [leftSweep_step, leftSweep_done, rightSweep_step, rightSweep_done, checkedWrite_ok, hw,
    Result.andThen, emit, dumpbin_eq, rotateLeft_values, rotateRight_values, sweepPayloads,
    stepEvents]

theorem sweeps_nominal (env : Env) (hw : ∀ k, toInt32 (env.writeResult k) = 2)
    (limit : Nat)
    (f : Int) (rest : List Nat) :
    ∀ n loop, limit - loop = n → ∀ (b : Nat) (t : List Event),
      ∃ b1, sweeps env limit loop ⟨2, 1, f, GPIOx :: b :: rest, t⟩ =
        .running ⟨2, 1, f, GPIOx :: b1 :: rest,
          t ++ (List.replicate n sweepPayloads).flatten.flatMap (stepEvents f)⟩ := by
  intro n
  induction n with
  | zero =>
    intro loop hn b t
    refine ⟨b, ?_⟩
    rw [sweeps_done _ _ _ _ (by omega)]
    simp
  | succ n ih =>
    intro loop hn b t
    obtain ⟨b1, hb1⟩ := ih (loop + 1) (by omega) 2 (t ++ sweepPayloads.flatMap (stepEvents f))
    refine ⟨b1, ?_⟩
    rw [sweeps_step _ _ _ _ (by omega), cycle_nominal env hw]
    simp only [Result.andThen]
    rw [hb1]
    simp [List.replicate_succ, List.append_assoc]

theorem mainWith_nominal (limit : Nat) (env : Env) (ho : 0 ≤ env.openResult)
    (hi : 0 ≤ env.ioctlResult) (hw : ∀ k, toInt32 (env.writeResult k) = 2) :
    mainWith limit env = .exited 0 ⟨2, 1, env.openResult, [IODIRx, 0xFF, 0, 0, 0, 0, 0, 0, 0, 0],
      nominalTrace limit env.openResult⟩ := by
  obtain ⟨b1, hb1⟩ := sweeps_nominal env hw limit env.openResult [0, 0, 0, 0, 0, 0, 0, 0]
    limit 0 rfl 0 [.sysOpen DEVICE, .sysIoctl env.openResult ADDRESS,
      .sysWrite env.openResult [IODIRx, 0x00]]
  unfold mainWith
  simp only [Machine.initial, emit, not_lt.mpr ho, not_lt.mpr hi, if_false, List.nil_append]
  rw [checkedWrite_ok _ _ (by simp [hw])]
  simp only [Result.andThen, emit, PATTERN]
  simp only [List.replicate, List.set, List.take, Int.toNat_ofNat, List.singleton_append,
    List.cons_append, List.nil_append]
  rw [hb1]
  simp [checkedWrite_ok, hw, emit, dumpbin_eq, nominalTrace, payloads, stepEvents, PATTERN]

/-! ## Invariants of every run -/

theorem Result.Sat.andThen {P P1 : Machine → Prop} {Q : Int → Machine → Prop} {r : Result}
    {f : Machine → Result} (hr : r.Sat P Q) (hf : ∀ m, P m → (f m).Sat P1 Q) :
    (r.andThen f).Sat P1 Q := by
  cases r with
  | running m => exact hf m hr
  | exited s m => exact hr

theorem Result.Sat.mono {P P1 : Machine → Prop} {Q Q1 : Int → Machine → Prop} {r : Result}
    (hr : r.Sat P Q) (hP : ∀ m, P m → P1 m) (hQ : ∀ s m, Q s m → Q1 s m) : r.Sat P1 Q1 := by
  cases r with
  | running m => exact hP m hr
  | exited s m => exact hQ s m hr

theorem writesOf_append (s t : List Event) : writesOf (s ++ t) = writesOf s ++ writesOf t := by
  simp [writesOf, List.filterMap_append]

theorem writesOf_nil : writesOf [] = [] := rfl

theorem writesOf_cons (e : Event) (t : List Event) :
    writesOf (e :: t) = (match e with
      | .sysWrite _ bs => [bs]
      | _ => []) ++ writesOf t := by
  cases e <;> simp [writesOf]

theorem writesOf_rendered (b : Nat) : writesOf (rendered b) = [] := by
  simp [writesOf, rendered, renderedText]

theorem noClose_append (s t : List Event) : NoClose (s ++ t) ↔ NoClose s ∧ NoClose t := by
  simp [NoClose, List.mem_append, forall_and]

theorem noClose_nil : NoClose [] := by simp [NoClose]

theorem noClose_cons (e : Event) (t : List Event) :
    NoClose (e :: t) ↔ (∀ fd, e ≠ .sysClose fd) ∧ NoClose t := by
  simp only [NoClose, List.mem_cons, not_or, forall_and]
  constructor
  · rintro ⟨h1, h2⟩
    exact ⟨fun fd h => h1 fd h.symm, h2⟩
  · rintro ⟨h1, h2⟩
    exact ⟨fun fd h => h1 fd h.symm, h2⟩

theorem noClose_rendered (b : Nat) : NoClose (rendered b) := by
  simp [NoClose, rendered, renderedText]

theorem checkedWrite_sat (env : Env) (bound n : Nat) (m : Machine) (hm : Going env n m)
    (hn : n < bound) :
    (checkedWrite env m).Sat (Going env (n + 1)) (Halted env bound) := by
  obtain ⟨hb, hfd, hlen, hprev, hnc⟩ := hm
  by_cases h : toInt32 (env.writeResult n) = 2
  · rw [checkedWrite_ok _ _ (by rw [hlen, hb, h])]
    refine ⟨hb, hfd, ?_, ?_, ?_⟩
    · simp [emit, writesOf_append, writesOf_cons, writesOf_nil, hlen]
    · intro j hj
      rcases Nat.lt_succ_iff_lt_or_eq.mp hj with hj | hj
      · exact hprev j hj
      · rw [hj]; exact h
    · simp [emit, noClose_append, noClose_cons, noClose_nil, hnc]
  · rw [checkedWrite_fail _ _ (by rw [hlen, hb]; exact h)]
    refine ⟨rfl, ?_, n, m.trace, m.fd, m.buf.take m.bytes.toNat, hn, ⟨hprev, h⟩, ?_, hlen⟩
    · simp [emit, noClose_append, noClose_cons, noClose_nil, hnc]
    · simp [emit]

theorem going_congr (env : Env) (n : Nat) (m m1 : Machine) (hm : Going env n m)
    (hb : m1.bytes = m.bytes) (hf : m1.fd = m.fd) (ht : m1.trace = m.trace) :
    Going env n m1 := by
  obtain ⟨h1, h2, h3, h4, h5⟩ := hm
  exact ⟨by rw [hb, h1], by rw [hf, h2], by rw [ht, h3], h4, by rw [ht]; exact h5⟩

theorem going_tail (env : Env) (n : Nat) (m : Machine) (hm : Going env n m) (x : Nat) (s : String)
    (d : Nat) :
    Going env n (emit (.usleep d) { emit (.printf s) (dumpbin m.data m) with data := x }) := by
  obtain ⟨hb, hfd, hlen, hprev, hnc⟩ := hm
  refine ⟨?_, ?_, ?_, hprev, ?_⟩
  · simp [emit, dumpbin_eq, hb]
  · simp [emit, dumpbin_eq, hfd]
  · simp [emit, dumpbin_eq, writesOf_append, writesOf_rendered, writesOf_cons, writesOf_nil, hlen]
  · simp [emit, dumpbin_eq, noClose_append, noClose_rendered, noClose_cons, noClose_nil, hnc]

theorem leftSweep_sat (env : Env) (bound : Nat) :
    ∀ c count n m, 7 - count = c → Going env n m → n + c ≤ bound →
      (leftSweep env count m).Sat (Going env (n + c)) (Halted env bound) := by
  intro c
  induction c with
  | zero =>
    intro count n m hc hm _
    rw [leftSweep_done _ _ _ (by omega)]
    exact hm
  | succ c ih =>
    intro count n m hc hm hn
    rw [leftSweep_step _ _ _ (by omega)]
    refine Result.Sat.andThen (checkedWrite_sat env bound n _ hm (by omega)) ?_
    intro m1 hm1
    have := ih (count + 1) (n + 1) _ (by omega) (going_tail env (n + 1) m1 hm1
      (rotateLeft (emit (.printf "\n") (dumpbin m1.data m1)).data) "\n" DELAY) (by omega)
    rw [show n + (c + 1) = n + 1 + c by omega]
    exact this

theorem rightSweep_sat (env : Env) (bound : Nat) :
    ∀ c count n m, 7 - count = c → Going env n m → n + c ≤ bound →
      (rightSweep env count m).Sat (Going env (n + c)) (Halted env bound) := by
  intro c
  induction c with
  | zero =>
    intro count n m hc hm _
    rw [rightSweep_done _ _ _ (by omega)]
    exact hm
  | succ c ih =>
    intro count n m hc hm hn
    rw [rightSweep_step _ _ _ (by omega)]
    refine Result.Sat.andThen (checkedWrite_sat env bound n _ hm (by omega)) ?_
    intro m1 hm1
    have := ih (count + 1) (n + 1) _ (by omega) (going_tail env (n + 1) m1 hm1
      (rotateRight (emit (.printf "\n") (dumpbin m1.data m1)).data) "\n" DELAY) (by omega)
    rw [show n + (c + 1) = n + 1 + c by omega]
    exact this

theorem sweeps_sat (env : Env) (limit bound : Nat) :
    ∀ c loop n m, limit - loop = c → Going env n m → n + 14 * c ≤ bound →
      (sweeps env limit loop m).Sat (Going env (n + 14 * c)) (Halted env bound) := by
  intro c
  induction c with
  | zero =>
    intro loop n m hc hm _
    rw [sweeps_done _ _ _ _ (by omega)]
    exact hm
  | succ c ih =>
    intro loop n m hc hm hn
    rw [sweeps_step _ _ _ _ (by omega)]
    have hcycle : ((leftSweep env 0 m).andThen fun m => rightSweep env 0 m).Sat
        (Going env (n + 7 + 7)) (Halted env bound) :=
      Result.Sat.andThen (leftSweep_sat env bound 7 0 n m rfl hm (by omega))
        (fun m1 hm1 => rightSweep_sat env bound 7 0 (n + 7) m1 rfl hm1 (by omega))
    refine Result.Sat.andThen hcycle ?_
    intro m2 hm2
    have := ih (loop + 1) (n + 7 + 7) m2 (by omega) hm2 (by omega)
    rw [show n + 14 * (c + 1) = n + 7 + 7 + 14 * c by omega]
    exact this

theorem mainWith_sat (limit : Nat) (env : Env) (ho : 0 ≤ env.openResult)
    (hi : 0 ≤ env.ioctlResult) :
    (mainWith limit env).Sat (fun _ => False)
      (fun s m => Halted env (14 * limit + 4) s m ∨ Completed env (14 * limit + 4) s m) := by
  have lift : ∀ {P : Machine → Prop} {r : Result}, r.Sat P (Halted env (14 * limit + 4)) →
      r.Sat P (fun s m => Halted env (14 * limit + 4) s m ∨ Completed env (14 * limit + 4) s m) :=
    fun h => h.mono (fun _ h => h) (fun _ _ h => Or.inl h)
  unfold mainWith
  simp only [Machine.initial, emit, not_lt.mpr ho, not_lt.mpr hi, if_false, List.nil_append]
  refine Result.Sat.andThen (lift (checkedWrite_sat env _ 0 _ ?_ (by omega))) ?_
  · exact ⟨rfl, rfl, by simp [writesOf_cons, writesOf_nil], by intro j hj; omega,
      by simp [noClose_cons, noClose_nil]⟩
  intro m1 hm1
  refine Result.Sat.andThen (lift (sweeps_sat env limit _ limit 0 (0 + 1) _ rfl
    (going_congr env _ m1 _ hm1 rfl rfl rfl) (by omega))) ?_
  intro m2 hm2
  refine Result.Sat.andThen (lift (checkedWrite_sat env _ _ _
    (going_congr env _ m2 _ hm2 rfl rfl rfl) (by omega))) ?_
  intro m3 hm3
  have hm3t := going_tail env _ m3 hm3 m3.data "\n" DELAY
  refine Result.Sat.andThen (lift (checkedWrite_sat env _ _ _
    (going_congr env _ _ _ hm3t rfl rfl rfl) (by omega))) ?_
  intro m4 hm4
  refine Result.Sat.andThen (lift (checkedWrite_sat env _ _ _
    (going_congr env _ m4 _ hm4 rfl rfl rfl) (by omega))) ?_
  intro m5 hm5
  obtain ⟨h1, h2, h3, h4, h5⟩ := hm5
  refine Or.inr ⟨rfl, ?_, m5.trace, ?_, h5, ?_⟩
  · intro j hj
    exact h4 j (by omega)
  · show m5.trace ++ [Event.sysClose m5.fd] = _
    rw [h2]
  · rw [h3]; omega

/-! ## Facts about the nominal trace -/

theorem writesOf_steps (fd : Int) (l : List Nat) :
    writesOf (l.flatMap (stepEvents fd)) = l.map fun p => [GPIOx, p] := by
  induction l with
  | nil => rfl
  | cons p l ih =>
    simp [List.flatMap_cons, writesOf_append, ih, stepEvents, writesOf_cons, writesOf_rendered,
      writesOf_nil]

theorem writesOf_nominalTrace (limit : Nat) (fd : Int) :
    writesOf (nominalTrace limit fd) =
      [[IODIRx, 0x00]] ++ (payloads limit).map (fun p => [GPIOx, p]) ++
        [[GPIOx, 0x00], [IODIRx, 0xFF]] := by
  simp [nominalTrace, writesOf_append, writesOf_steps, writesOf_cons, writesOf_nil]

theorem console_rendered (b : Nat) : console (rendered b) = renderedText b := by
  simp [console, rendered, renderedText]

theorem payloads_length (limit : Nat) : (payloads limit).length = 14 * limit + 1 := by
  induction limit with
  | zero => rfl
  | succ n ih =>
    simp only [payloads, List.replicate_succ, List.flatten_cons, List.append_assoc,
      List.length_append] at ih ⊢
    simp only [sweepPayloads, List.length_cons, List.length_nil] at ih ⊢
    omega

theorem dumpbinText_eq (b : Nat) : dumpbinText b = renderedText b := by
  simp [dumpbinText, dumpbin_eq, Machine.initial, console_rendered]

theorem main_eq_nominal (env : Env) (ho : 0 ≤ env.openResult) (hi : 0 ≤ env.ioctlResult)
    (hw : ∀ k, env.writeResult k = 2) :
    (main env).trace = nominalTrace LIMIT env.openResult ∧ (main env).status = some 0 := by
  unfold main
  rw [mainWith_nominal LIMIT env ho hi (toInt32_of_two env hw)]
  exact ⟨rfl, rfl⟩

theorem mainWith_cases (limit : Nat) (env : Env) (ho : 0 ≤ env.openResult)
    (hi : 0 ≤ env.ioctlResult) :
    ∃ s m, mainWith limit env = .exited s m ∧
      (Halted env (14 * limit + 4) s m ∨ Completed env (14 * limit + 4) s m) := by
  have h := mainWith_sat limit env ho hi
  cases hr : mainWith limit env with
  | running m => rw [hr] at h; exact h.elim
  | exited s m => rw [hr] at h; exact ⟨s, m, rfl, h⟩

theorem bitChar_eq (b i : Nat) : bitChar b i = if b.testBit i then '1' else '0' := by
  unfold bitChar
  rw [Nat.and_one_is_mod]
  rcases Nat.mod_two_eq_zero_or_one (b >>> i) with h | h
  · have ht : b.testBit i = false := by
      simp [Nat.testBit, h, Nat.and_one_is_mod]
    rw [h, ht]; rfl
  · have ht : b.testBit i = true := by
      simp [Nat.testBit, h, Nat.and_one_is_mod]
    rw [h, ht]; rfl

set_option maxRecDepth 100000 in
theorem readBack_renderedText : ∀ b < 256, readBack (renderedText b) = b := by
  decide

theorem payloads_succ (n : Nat) : payloads (n + 1) = sweepPayloads ++ payloads n := by
  simp [payloads, List.replicate_succ]

theorem payloads_getD (limit : Nat) :
    ∀ j, j ≤ 14 * limit → (payloads limit).getD j 0 = sweepPayloads.getD (j % 14) 0 := by
  induction limit with
  | zero =>
    intro j hj
    have : j = 0 := by omega
    subst this
    rfl
  | succ n ih =>
    intro j hj
    rw [payloads_succ]
    by_cases h : j < 14
    · rw [List.getD_append _ _ _ _ (by simpa [sweepPayloads] using h), Nat.mod_eq_of_lt h]
    · rw [List.getD_append_right _ _ _ _ (by simpa [sweepPayloads] using h)]
      have hlen : sweepPayloads.length = 14 := rfl
      rw [hlen, ih (j - 14) (by omega)]
      congr 1
      omega

theorem payloads_head (limit : Nat) : (payloads limit).head? = some 1 := by
  cases limit with
  | zero => rfl
  | succ n => rw [payloads_succ]; rfl

theorem payloads_chain (limit : Nat) : List.Chain' (fun a b => a ≠ b) (payloads limit) := by
  induction limit with
  | zero => simp [payloads]
  | succ n ih =>
    rw [payloads_succ]
    refine List.Chain'.append (by simp [sweepPayloads]) ih ?_
    intro x hx y hy
    rw [payloads_head] at hy
    have hx2 : x = 2 := by
      simp [sweepPayloads] at hx
      exact hx.symm
    have hy1 : y = 1 := by
      simp at hy
      exact hy.symm
    omega

theorem sweepPayloads_step : ∀ r < 14,
    popcount (sweepPayloads.getD r 0) = 1 ∧ popcount (sweepPayloads.getD ((r + 1) % 14) 0) = 1 ∧
      sweepPayloads.getD ((r + 1) % 14) 0 =
        if r < 7 then rotateLeft (sweepPayloads.getD r 0)
        else rotateRight (sweepPayloads.getD r 0) := by
  decide

/-! ## Every run is the nominal run, cut at the first failing transfer -/

theorem checkedWrite_grows (env : Env) (m : Machine) :
    m.trace <+: (checkedWrite env m).trace := by
  unfold checkedWrite
  simp only [emit]
  split
  · exact ⟨_, (List.append_assoc _ _ _).symm⟩
  · exact ⟨_, rfl⟩

theorem andThen_grows (r : Result) (f : Machine → Result)
    (hf : ∀ m, m.trace <+: (f m).trace) : r.trace <+: (r.andThen f).trace := by
  cases r with
  | running m => exact hf m
  | exited s m => exact List.prefix_refl _

theorem tail_grows (m : Machine) (s : String) (d x : Nat) :
    m.trace <+: (emit (.usleep d) { emit (.printf s) (dumpbin m.data m) with data := x }).trace := by
  simp only [emit, dumpbin_eq]
  exact ⟨rendered m.data ++ [Event.printf s, Event.usleep d], by simp [List.append_assoc]⟩

theorem leftSweep_grows (env : Env) :
    ∀ c count m, 7 - count = c → m.trace <+: (leftSweep env count m).trace := by
  intro c
  induction c with
  | zero =>
    intro count m hc
    rw [leftSweep_done _ _ _ (by omega)]
    exact List.prefix_refl _
  | succ c ih =>
    intro count m hc
    rw [leftSweep_step _ _ _ (by omega)]
    refine List.IsPrefix.trans (checkedWrite_grows env { m with buf := m.buf.set 1 m.data }) ?_
    refine andThen_grows _ _ ?_
    intro m1
    exact List.IsPrefix.trans (tail_grows m1 "\n" DELAY _) (ih (count + 1) _ (by omega))

theorem rightSweep_grows (env : Env) :
    ∀ c count m, 7 - count = c → m.trace <+: (rightSweep env count m).trace := by
  intro c
  induction c with
  | zero =>
    intro count m hc
    rw [rightSweep_done _ _ _ (by omega)]
    exact List.prefix_refl _
  | succ c ih =>
    intro count m hc
    rw [rightSweep_step _ _ _ (by omega)]
    refine List.IsPrefix.trans (checkedWrite_grows env { m with buf := m.buf.set 1 m.data }) ?_
    refine andThen_grows _ _ ?_
    intro m1
    exact List.IsPrefix.trans (tail_grows m1 "\n" DELAY _) (ih (count + 1) _ (by omega))

theorem sweeps_grows (env : Env) (limit : Nat) :
    ∀ c loop m, limit - loop = c → m.trace <+: (sweeps env limit loop m).trace := by
  intro c
  induction c with
  | zero =>
    intro loop m hc
    rw [sweeps_done _ _ _ _ (by omega)]
    exact List.prefix_refl _
  | succ c ih =>
    intro loop m hc
    rw [sweeps_step _ _ _ _ (by omega)]
    refine List.IsPrefix.trans (leftSweep_grows env 7 0 m rfl) ?_
    refine List.IsPrefix.trans (andThen_grows _ _ (fun m1 => rightSweep_grows env 7 0 m1 rfl)) ?_
    exact andThen_grows _ _ (fun m2 => ih (loop + 1) m2 (by omega))

theorem cut_andThen {r r0 : Result} {f f0 : Machine → Result} (h : Cut r r0)
    (hf : ∀ m, r0 = .running m → Cut (f m) (f0 m))
    (hg : ∀ m, m.trace <+: (f0 m).trace) : Cut (r.andThen f) (r0.andThen f0) := by
  rcases h with h | ⟨m, pre, fd, bs, hr, ht, hp⟩
  · subst h
    cases r with
    | running m => exact hf m rfl
    | exited s m => exact Or.inl rfl
  · subst hr
    exact Or.inr ⟨m, pre, fd, bs, rfl, ht, List.IsPrefix.trans hp (andThen_grows r0 f0 hg)⟩

theorem checkedWrite_cut (env : Env) (m : Machine) (hb : m.bytes = 2) :
    Cut (checkedWrite env m) (checkedWrite (okEnv env) m) := by
  have hok : checkedWrite (okEnv env) m =
      .running (emit (.sysWrite m.fd (m.buf.take m.bytes.toNat)) m) :=
    checkedWrite_ok _ _ (by rw [hb]; rfl)
  by_cases h : toInt32 (env.writeResult (writesOf m.trace).length) = m.bytes
  · left
    rw [checkedWrite_ok _ _ h, hok]
  · right
    rw [checkedWrite_fail _ _ h, hok]
    exact ⟨_, m.trace, m.fd, m.buf.take m.bytes.toNat, rfl, by simp [emit],
      List.prefix_refl _⟩

theorem going_of_running {env : Env} {bound n : Nat} {r : Result} {m : Machine}
    (h : r.Sat (Going env n) (Halted env bound)) (hr : r = .running m) : Going env n m := by
  subst hr
  exact h

theorem leftSweep_cut (env : Env) :
    ∀ c count n m, 7 - count = c → Going (okEnv env) n m →
      Cut (leftSweep env count m) (leftSweep (okEnv env) count m) := by
  intro c
  induction c with
  | zero =>
    intro count n m hc _
    rw [leftSweep_done _ _ _ (by omega), leftSweep_done _ _ _ (by omega)]
    exact Or.inl rfl
  | succ c ih =>
    intro count n m hc hm
    rw [leftSweep_step _ _ _ (by omega), leftSweep_step _ _ _ (by omega)]
    refine cut_andThen (checkedWrite_cut env _ hm.1) ?_ ?_
    · intro m1 hr
      have hm1 : Going (okEnv env) (n + 1) m1 :=
        going_of_running (checkedWrite_sat (okEnv env) (n + 1) n
          { m with buf := m.buf.set 1 m.data }
          (going_congr _ _ m _ hm rfl rfl rfl) (by omega)) hr
      exact ih (count + 1) (n + 1) _ (by omega) (going_tail _ _ m1 hm1 _ "\n" DELAY)
    · intro m1
      exact List.IsPrefix.trans (tail_grows m1 "\n" DELAY _)
        (leftSweep_grows _ c (count + 1) _ (by omega))

theorem rightSweep_cut (env : Env) :
    ∀ c count n m, 7 - count = c → Going (okEnv env) n m →
      Cut (rightSweep env count m) (rightSweep (okEnv env) count m) := by
  intro c
  induction c with
  | zero =>
    intro count n m hc _
    rw [rightSweep_done _ _ _ (by omega), rightSweep_done _ _ _ (by omega)]
    exact Or.inl rfl
  | succ c ih =>
    intro count n m hc hm
    rw [rightSweep_step _ _ _ (by omega), rightSweep_step _ _ _ (by omega)]
    refine cut_andThen (checkedWrite_cut env _ hm.1) ?_ ?_
    · intro m1 hr
      have hm1 : Going (okEnv env) (n + 1) m1 :=
        going_of_running (checkedWrite_sat (okEnv env) (n + 1) n
          { m with buf := m.buf.set 1 m.data }
          (going_congr _ _ m _ hm rfl rfl rfl) (by omega)) hr
      exact ih (count + 1) (n + 1) _ (by omega) (going_tail _ _ m1 hm1 _ "\n" DELAY)
    · intro m1
      exact List.IsPrefix.trans (tail_grows m1 "\n" DELAY _)
        (rightSweep_grows _ c (count + 1) _ (by omega))

theorem sweeps_cut (env : Env) (limit : Nat) :
    ∀ c loop n m, limit - loop = c → Going (okEnv env) n m →
      Cut (sweeps env limit loop m) (sweeps (okEnv env) limit loop m) := by
  intro c
  induction c with
  | zero =>
    intro loop n m hc _
    rw [sweeps_done _ _ _ _ (by omega), sweeps_done _ _ _ _ (by omega)]
    exact Or.inl rfl
  | succ c ih =>
    intro loop n m hc hm
    rw [sweeps_step _ _ _ _ (by omega), sweeps_step _ _ _ _ (by omega)]
    have hl := leftSweep_sat (okEnv env) (n + 14) 7 0 n m rfl hm (by omega)
    have hcycle : ((leftSweep (okEnv env) 0 m).andThen fun m =>
        rightSweep (okEnv env) 0 m).Sat (Going (okEnv env) (n + 7 + 7))
        (Halted (okEnv env) (n + 14)) :=
      Result.Sat.andThen hl
        (fun m1 hm1 => rightSweep_sat (okEnv env) (n + 14) 7 0 (n + 7) m1 rfl hm1 (by omega))
    refine cut_andThen (cut_andThen (leftSweep_cut env 7 0 n m rfl hm) ?_ ?_) ?_ ?_
    · intro m1 hr
      exact rightSweep_cut env 7 0 (n + 7) m1 rfl (going_of_running hl hr)
    · intro m1
      exact rightSweep_grows _ 7 0 m1 rfl
    · intro m2 hr
      exact ih (loop + 1) (n + 7 + 7) m2 (by omega) (going_of_running hcycle hr)
    · intro m2
      exact sweeps_grows _ limit c (loop + 1) m2 (by omega)

theorem checkedWrite_then_grows (env : Env) (m m1 : Machine) (f : Machine → Result)
    (ht : m.trace <+: m1.trace) (hf : ∀ m, m.trace <+: (f m).trace) :
    m.trace <+: ((checkedWrite env m1).andThen f).trace :=
  ht.trans ((checkedWrite_grows env m1).trans (andThen_grows _ _ hf))

theorem mainWith_cut (limit : Nat) (env : Env) (ho : 0 ≤ env.openResult)
    (hi : 0 ≤ env.ioctlResult) :
    Cut (mainWith limit env) (mainWith limit (okEnv env)) := by
  have ho1 : ¬ (okEnv env).openResult < 0 := not_lt.mpr ho
  have hi1 : ¬ (okEnv env).ioctlResult < 0 := not_lt.mpr hi
  have hfd : (okEnv env).openResult = env.openResult := rfl
  have g5 : ∀ m : Machine, m.trace <+: (Result.exited 0 (emit (.sysClose m.fd) m)).trace :=
    fun m => ⟨_, rfl⟩
  have g4 : ∀ m : Machine, m.trace <+:
      ((checkedWrite (okEnv env) { m with buf := (m.buf.set 0 IODIRx).set 1 0xFF }).andThen
        fun m => Result.exited 0 (emit (.sysClose m.fd) m)).trace :=
    fun m => checkedWrite_then_grows _ m _ _ (List.prefix_refl _) g5
  have g3 : ∀ m : Machine, m.trace <+:
      ((checkedWrite (okEnv env)
          { emit (.usleep DELAY) (emit (.printf "\n") (dumpbin m.data m)) with
            buf := (emit (.usleep DELAY) (emit (.printf "\n") (dumpbin m.data m))).buf.set 1 0x00 }).andThen
        fun m => (checkedWrite (okEnv env) { m with buf := (m.buf.set 0 IODIRx).set 1 0xFF }).andThen
        fun m => Result.exited 0 (emit (.sysClose m.fd) m)).trace := by
    intro m
    refine checkedWrite_then_grows _ m _ _ ?_ g4
    simp only [emit, dumpbin_eq]
    exact ⟨rendered m.data ++ [Event.printf "\n", Event.usleep DELAY], by simp [List.append_assoc]⟩
  have g2 : ∀ m : Machine, m.trace <+:
      ((checkedWrite (okEnv env) { m with buf := m.buf.set 1 m.data }).andThen fun m =>
        (checkedWrite (okEnv env)
          { emit (.usleep DELAY) (emit (.printf "\n") (dumpbin m.data m)) with
            buf := (emit (.usleep DELAY) (emit (.printf "\n") (dumpbin m.data m))).buf.set 1 0x00 }).andThen
        fun m => (checkedWrite (okEnv env) { m with buf := (m.buf.set 0 IODIRx).set 1 0xFF }).andThen
        fun m => Result.exited 0 (emit (.sysClose m.fd) m)).trace :=
    fun m => checkedWrite_then_grows _ m _ _ (List.prefix_refl _) g3
  have g1 : ∀ m : Machine, m.trace <+:
      ((sweeps (okEnv env) limit 0 { m with data := PATTERN, buf := m.buf.set 0 GPIOx }).andThen
        fun m => (checkedWrite (okEnv env) { m with buf := m.buf.set 1 m.data }).andThen fun m =>
        (checkedWrite (okEnv env)
          { emit (.usleep DELAY) (emit (.printf "\n") (dumpbin m.data m)) with
            buf := (emit (.usleep DELAY) (emit (.printf "\n") (dumpbin m.data m))).buf.set 1 0x00 }).andThen
        fun m => (checkedWrite (okEnv env) { m with buf := (m.buf.set 0 IODIRx).set 1 0xFF }).andThen
        fun m => Result.exited 0 (emit (.sysClose m.fd) m)).trace :=
    fun m => List.IsPrefix.trans
      (sweeps_grows (okEnv env) limit limit 0 { m with data := PATTERN, buf := m.buf.set 0 GPIOx }
        rfl) (andThen_grows _ _ g2)
  unfold mainWith
  simp only [Machine.initial, not_lt.mpr ho, not_lt.mpr hi, ho1, hi1, if_false, hfd]
  have hg0 : Going (okEnv env) 0
      { emit (.sysIoctl env.openResult ADDRESS)
          { emit (.sysOpen DEVICE) Machine.initial with fd := env.openResult } with
        bytes := 2,
        buf := ((List.replicate 10 0).set 0 IODIRx).set 1 0x00 } :=
    ⟨rfl, rfl, by simp [emit, Machine.initial, writesOf_cons, writesOf_nil],
      by intro j hj; omega, by simp [emit, Machine.initial, noClose_cons, noClose_nil]⟩
  have hA := checkedWrite_sat (okEnv env) (14 * limit + 4) 0 _ hg0 (by omega)
  refine cut_andThen (checkedWrite_cut env _ rfl) ?_ g1
  intro m1 hr1
  have hm1 := going_of_running hA hr1
  have hm1c : Going (okEnv env) (0 + 1) { m1 with data := PATTERN, buf := m1.buf.set 0 GPIOx } :=
    going_congr _ _ m1 _ hm1 rfl rfl rfl
  have hB := sweeps_sat (okEnv env) limit (14 * limit + 4) limit 0 (0 + 1) _ rfl hm1c (by omega)
  refine cut_andThen (sweeps_cut env limit limit 0 (0 + 1) _ rfl hm1c) ?_ g2
  intro m2 hr2
  have hm2 := going_of_running hB hr2
  have hm2c : Going (okEnv env) (0 + 1 + 14 * limit) { m2 with buf := m2.buf.set 1 m2.data } :=
    going_congr _ _ m2 _ hm2 rfl rfl rfl
  have hC := checkedWrite_sat (okEnv env) (14 * limit + 4) _ _ hm2c (by omega)
  refine cut_andThen (checkedWrite_cut env _ hm2c.1) ?_ g3
  intro m3 hr3
  have hm3 := going_of_running hC hr3
  have hm3t := going_tail (okEnv env) _ m3 hm3 m3.data "\n" DELAY
  have hm3c : Going (okEnv env) (0 + 1 + 14 * limit + 1)
      { emit (.usleep DELAY) (emit (.printf "\n") (dumpbin m3.data m3)) with
        buf := (emit (.usleep DELAY) (emit (.printf "\n") (dumpbin m3.data m3))).buf.set 1 0x00 } :=
    going_congr _ _ _ _ hm3t rfl rfl rfl
  have hD := checkedWrite_sat (okEnv env) (14 * limit + 4) _ _ hm3c (by omega)
  refine cut_andThen (checkedWrite_cut env _ hm3c.1) ?_ g4
  intro m4 hr4
  have hm4 := going_of_running hD hr4
  have hm4c : Going (okEnv env) (0 + 1 + 14 * limit + 1 + 1)
      { m4 with buf := (m4.buf.set 0 IODIRx).set 1 0xFF } :=
    going_congr _ _ m4 _ hm4 rfl rfl rfl
  refine cut_andThen (checkedWrite_cut env _ hm4c.1) ?_ g5
  intro m5 _
  exact Or.inl rfl

theorem mainWith_run (limit : Nat) (env : Env) (ho : 0 ≤ env.openResult)
    (hi : 0 ≤ env.ioctlResult) :
    ((∀ j < 14 * limit + 4, toInt32 (env.writeResult j) = 2) ∧
        mainWith limit env = .exited 0 ⟨2, 1, env.openResult,
          [IODIRx, 0xFF, 0, 0, 0, 0, 0, 0, 0, 0], nominalTrace limit env.openResult⟩) ∨
      ∃ k m pre fd bs, k < 14 * limit + 4 ∧ FirstFail env k ∧
        mainWith limit env = .exited 1 m ∧
        m.trace = pre ++ [Event.sysWrite fd bs, Event.printf "Error writing data\n"] ∧
        (writesOf pre).length = k ∧
        (pre ++ [Event.sysWrite fd bs]) <+: nominalTrace limit env.openResult ∧
        NoClose m.trace := by
  have hcut := mainWith_cut limit env ho hi
  rw [mainWith_nominal limit (okEnv env) ho hi (fun _ => rfl)] at hcut
  obtain ⟨s, m, hr, hcase⟩ := mainWith_cases limit env ho hi
  rcases hcut with heq | ⟨m1, pre, fd, bs, hr1, ht, hp⟩
  · left
    rw [hr] at heq
    injection heq with hs hm
    rcases hcase with ⟨hs1, -⟩ | ⟨-, hall, -⟩
    · rw [hs] at hs1
      exact absurd hs1 (by decide)
    · exact ⟨hall, by rw [hr, hs, hm]; rfl⟩
  · right
    rw [hr] at hr1
    injection hr1 with hs hm
    subst hm
    rcases hcase with ⟨-, hnc, k, pre1, fd1, bs1, hk, hff, ht1, hlen⟩ | ⟨hs1, -⟩
    · have heq : pre ++ [Event.sysWrite fd bs] = pre1 ++ [Event.sysWrite fd1 bs1] := by
        have h2 : (pre ++ [Event.sysWrite fd bs]) ++ [Event.printf "Error writing data\n"] =
            (pre1 ++ [Event.sysWrite fd1 bs1]) ++ [Event.printf "Error writing data\n"] := by
          rw [List.append_assoc, List.append_assoc]
          exact ht.symm.trans ht1
        exact List.append_inj_left' h2 rfl
      refine ⟨k, m, pre1, fd1, bs1, hk, hff, by rw [hr, hs], ht1, hlen, ?_, hnc⟩
      rw [← heq]
      exact hp
    · rw [hs] at hs1
      exact absurd hs1 (by decide)

theorem writes_take (limit : Nat) (env : Env) (k : Nat) (m : Machine) (pre : List Event)
    (fd : Int) (bs : List Nat)
    (ht : m.trace = pre ++ [Event.sysWrite fd bs, Event.printf "Error writing data\n"])
    (hlen : (writesOf pre).length = k)
    (hp : (pre ++ [Event.sysWrite fd bs]) <+: nominalTrace limit env.openResult) :
    writesOf m.trace = (writesOf (nominalTrace limit env.openResult)).take (k + 1) := by
  have h1 : writesOf m.trace = writesOf (pre ++ [Event.sysWrite fd bs]) := by
    rw [ht]
    simp [writesOf_append, writesOf_cons, writesOf_nil]
  have h2 : writesOf (pre ++ [Event.sysWrite fd bs]) <+:
      writesOf (nominalTrace limit env.openResult) := by
    unfold writesOf
    exact List.IsPrefix.filterMap _ hp
  have h3 : (writesOf (pre ++ [Event.sysWrite fd bs])).length = k + 1 := by
    simp [writesOf_append, writesOf_cons, writesOf_nil, hlen]
  rw [h1, List.prefix_iff_eq_take.mp h2, h3]

/-! ## The claims -/

/-- C1: on a channel where open, the address claim and every write succeed,
`main` (with `LIMIT` = 2) performs exactly 32 transfers of 2 bytes each: the
direction configuration `(0x00, 0x00)`, then 29 transfers to the data register
`0x12`, then the clear `(0x12, 0x00)`, then the direction reset `(0x00, 0xFF)`;
after them the channel is closed, and the exit status is 0. -/
theorem nominal_run_transfers (env : Env) (ho : 0 ≤ env.openResult)
    (hi : 0 ≤ env.ioctlResult) (hw : ∀ k, env.writeResult k = 2) :
    ∃ (pre : List Event) (ps : List Nat),
      (main env).trace = pre ++ [Event.sysClose env.openResult] ∧
      writesOf pre = [[0x00, 0x00]] ++ ps.map (fun p => [0x12, p]) ++
        [[0x12, 0x00], [0x00, 0xFF]] ∧
      ps.length = 29 ∧
      (writesOf (main env).trace).length = 32 ∧
      (∀ bs ∈ writesOf (main env).trace, bs.length = 2) ∧
      (∀ fd bs, Event.sysWrite fd bs ∈ (main env).trace → fd = env.openResult) ∧
      (main env).status = some 0 := by
  obtain ⟨ht, hs⟩ := main_eq_nominal env ho hi hw
  have hwr := writesOf_nominalTrace LIMIT env.openResult
  refine ⟨[.sysOpen DEVICE, .sysIoctl env.openResult ADDRESS,
      .sysWrite env.openResult [IODIRx, 0x00]] ++
      (payloads LIMIT).flatMap (stepEvents env.openResult) ++
      [.sysWrite env.openResult [GPIOx, 0x00], .sysWrite env.openResult [IODIRx, 0xFF]],
    payloads LIMIT, ?_, ?_, ?_, ?_, ?_, ?_, hs⟩
  · rw [ht]
    simp [nominalTrace]
  · simp [writesOf_append, writesOf_steps, writesOf_cons, writesOf_nil, IODIRx, IODIRA, GPIOx,
      GPIOA]
  · rw [payloads_length]
    rfl
  · rw [ht, hwr]
    simp [payloads_length, LIMIT]
  · rw [ht, hwr]
    intro bs hbs
    simp only [List.mem_append, List.mem_map, List.mem_cons, List.mem_singleton,
      List.not_mem_nil, or_false] at hbs
    rcases hbs with (rfl | ⟨p, -, rfl⟩) | rfl | rfl <;> rfl
  · rw [ht]
    intro fd bs h
    simp only [nominalTrace, List.mem_append, List.mem_cons, List.mem_flatMap, stepEvents,
      rendered, List.mem_map, List.not_mem_nil, or_false] at h
    rcases h with (h | ⟨p, -, h⟩) | h
    · rcases h with h | h | h
      · cases h
      · cases h
      · injection h with h1 h2
    · rcases h with h | ⟨c, -, h⟩ | h | h
      · injection h with h1 h2
      · cases h
      · cases h
      · cases h
    · rcases h with h | h | h
      · injection h with h1 h2
      · injection h with h1 h2
      · cases h

theorem nominal_run_transfers_witness :
    (0 ≤ (nominalEnv 3).openResult ∧ 0 ≤ (nominalEnv 3).ioctlResult ∧ ∀ k, (nominalEnv 3).writeResult k = 2) ∧
    (∃ (pre : List Event) (ps : List Nat),
      (main (nominalEnv 3)).trace = pre ++ [Event.sysClose (nominalEnv 3).openResult] ∧
      writesOf pre = [[0x00, 0x00]] ++ ps.map (fun p => [0x12, p]) ++
        [[0x12, 0x00], [0x00, 0xFF]] ∧
      ps.length = 29 ∧
      (writesOf (main (nominalEnv 3)).trace).length = 32 ∧
      (∀ bs ∈ writesOf (main (nominalEnv 3)).trace, bs.length = 2) ∧
      (∀ fd bs, Event.sysWrite fd bs ∈ (main (nominalEnv 3)).trace → fd = (nominalEnv 3).openResult) ∧
      (main (nominalEnv 3)).status = some 0) :=
  ⟨⟨by decide, by decide, fun _ => rfl⟩,
    nominal_run_transfers (nominalEnv 3) (by decide) (by decide) (fun _ => rfl)⟩

/-- C3: when `open` returns a negative descriptor, `main` prints the open
diagnostic and terminates with status 1, without any `ioctl` nor `write`. -/
theorem open_failure_short_circuit (env : Env) (h : env.openResult < 0) :
    (main env).trace = [Event.sysOpen DEVICE, Event.printf "Failed to open device\n"] ∧
      (∀ fd addr, Event.sysIoctl fd addr ∉ (main env).trace) ∧
      writesOf (main env).trace = [] ∧
      console (main env).trace = "Failed to open device\n".toList ∧
      (main env).status = some 1 := by
  have hr : main env = .exited 1 ⟨0, 0, env.openResult, List.replicate 10 0,
      [Event.sysOpen DEVICE, Event.printf "Failed to open device\n"]⟩ := by
    simp [main, mainWith, Machine.initial, emit, h]
  rw [hr]
  refine ⟨rfl, ?_, rfl, rfl, rfl⟩
  intro fd addr hmem
  simp [Result.trace] at hmem

theorem open_failure_short_circuit_witness :
    (main ⟨-1, 0, fun _ => 2⟩).trace =
        [Event.sysOpen DEVICE, Event.printf "Failed to open device\n"] ∧
      (∀ fd addr, Event.sysIoctl fd addr ∉ (main ⟨-1, 0, fun _ => 2⟩).trace) ∧
      writesOf (main ⟨-1, 0, fun _ => 2⟩).trace = [] ∧
      console (main ⟨-1, 0, fun _ => 2⟩).trace = "Failed to open device\n".toList ∧
      (main ⟨-1, 0, fun _ => 2⟩).status = some 1 :=
  open_failure_short_circuit ⟨-1, 0, fun _ => 2⟩ (by decide)

/-- C4, refuted as stated: with the address claim failing, and with the sixth
write failing, the handle was opened, the exit status is 1 and no `close` was
issued. -/
theorem close_missing_on_error_paths :
    ((main ⟨3, -1, fun _ => 2⟩).status = some 1 ∧
        Event.sysOpen DEVICE ∈ (main ⟨3, -1, fun _ => 2⟩).trace ∧
        ∀ fd, Event.sysClose fd ∉ (main ⟨3, -1, fun _ => 2⟩).trace) ∧
      ((main (failingEnv 3 5)).status = some 1 ∧
        Event.sysOpen DEVICE ∈ (main (failingEnv 3 5)).trace ∧
        ∀ fd, Event.sysClose fd ∉ (main (failingEnv 3 5)).trace) := by
  constructor
  · have hr : main ⟨3, -1, fun _ => 2⟩ = .exited 1 ⟨0, 0, 3, List.replicate 10 0,
        [Event.sysOpen DEVICE, Event.sysIoctl 3 ADDRESS,
          Event.printf "Unable to access device\n"]⟩ := by
      simp [main, mainWith, Machine.initial, emit]
    rw [hr]
    refine ⟨rfl, by simp [Result.trace], ?_⟩
    intro fd h
    simp [Result.trace] at h
  · have hr : main (failingEnv 3 5) = .exited 1 ⟨2, 16, 3,
        [GPIOx, 16, 0, 0, 0, 0, 0, 0, 0, 0],
        [Event.sysOpen DEVICE, Event.sysIoctl 3 ADDRESS, Event.sysWrite 3 [IODIRx, 0x00]] ++
          [1, 2, 4, 8].flatMap (stepEvents 3) ++
          [Event.sysWrite 3 [GPIOx, 16], Event.printf "Error writing data\n"]⟩ := by
      simp [main, mainWith, failingEnv, LIMIT, Machine.initial, sweeps_step, leftSweep_step, checkedWrite,
        toInt32_one, toInt32_two, Result.andThen, emit, dumpbin_eq, rotateLeft_values, stepEvents, PATTERN,
        writesOf_append, writesOf_cons, writesOf_nil, writesOf_rendered]
    rw [hr]
    refine ⟨rfl, by simp [Result.trace], ?_⟩
    intro fd h
    simp [Result.trace, stepEvents, rendered] at h

/-- C4, amended: `main` closes the handle on the nominal path only.  Either
the checks of open, of the address claim and of all 32 writes pass (the count
a write returns, cut to `int`, is 2), the exit status is 0 and `close` is the
last call of the run; or one of these checks fails, the exit status is 1 and
no `close` is issued. -/
theorem close_only_on_nominal_path (env : Env) :
    ((0 ≤ env.openResult ∧ 0 ≤ env.ioctlResult ∧
          ∀ j < 32, toInt32 (env.writeResult j) = 2) ∧
        (main env).status = some 0 ∧
        ∃ pre, (main env).trace = pre ++ [Event.sysClose env.openResult] ∧ NoClose pre) ∨
      ((env.openResult < 0 ∨ env.ioctlResult < 0 ∨
          ∃ j < 32, toInt32 (env.writeResult j) ≠ 2) ∧
        (main env).status = some 1 ∧ NoClose (main env).trace) := by
  by_cases ho : env.openResult < 0
  · right
    have hr : main env = .exited 1 ⟨0, 0, env.openResult, List.replicate 10 0,
        [Event.sysOpen DEVICE, Event.printf "Failed to open device\n"]⟩ := by
      simp [main, mainWith, Machine.initial, emit, ho]
    rw [hr]
    exact ⟨Or.inl ho, rfl, by simp [Result.trace, noClose_cons, noClose_nil]⟩
  by_cases hi : env.ioctlResult < 0
  · right
    have hr : main env = .exited 1 ⟨0, 0, env.openResult, List.replicate 10 0,
        [Event.sysOpen DEVICE, Event.sysIoctl env.openResult ADDRESS,
          Event.printf "Unable to access device\n"]⟩ := by
      simp [main, mainWith, Machine.initial, emit, ho, hi]
    rw [hr]
    exact ⟨Or.inr (Or.inl hi), rfl, by simp [Result.trace, noClose_cons, noClose_nil]⟩
  obtain ⟨s, m, hr, hcase⟩ := mainWith_cases LIMIT env (not_lt.mp ho) (not_lt.mp hi)
  unfold main
  rw [hr]
  rcases hcase with ⟨hs, hnc, k1, pre, fd, bs, hk1, hff, -, -⟩ | ⟨hs, hall, pre, htr, hnc, -⟩
  · right
    refine ⟨Or.inr (Or.inr ⟨k1, by simp only [LIMIT] at hk1; omega, hff.2⟩), ?_, hnc⟩
    simp [Result.status, hs]
  · left
    refine ⟨⟨not_lt.mp ho, not_lt.mp hi, fun j hj => hall j (by simp only [LIMIT]; omega)⟩, ?_,
      pre, htr, hnc⟩
    simp [Result.status, hs]

/-- C6: for every outer repeat count, the pattern starts as `PATTERN` and each
of its `14 * limit` rotations (left in the first seven steps of an outer
iteration, right in the last seven) takes a value with exactly one bit set to
a value with exactly one bit set.  These values `ps` are what the program
writes to the data register: in every run in which open and the address claim
succeed the transfers are the first ones of configuration, `ps`, clear, reset;
when every write succeeds they are all of them, and the pattern ends as the
last value of `ps`. -/
theorem single_bit_invariant (limit : Nat) (env : Env) (ho : 0 ≤ env.openResult)
    (hi : 0 ≤ env.ioctlResult) :
    ∃ ps : List Nat,
      ps.length = 14 * limit + 1 ∧
      ps.getD 0 0 = PATTERN ∧
      (∀ i < 14 * limit,
        popcount (ps.getD i 0) = 1 ∧ popcount (ps.getD (i + 1) 0) = 1 ∧
        ps.getD (i + 1) 0 =
          if i % 14 < 7 then rotateLeft (ps.getD i 0) else rotateRight (ps.getD i 0)) ∧
      (∀ p ∈ ps, popcount p = 1) ∧
      writesOf (mainWith limit env).trace <+:
        [[IODIRx, 0x00]] ++ ps.map (fun p => [GPIOx, p]) ++
          [[GPIOx, 0x00], [IODIRx, 0xFF]] ∧
      ((∀ k < 14 * limit + 4, env.writeResult k = 2) →
        ∃ m, mainWith limit env = .exited 0 m ∧
          writesOf m.trace =
            [[IODIRx, 0x00]] ++ ps.map (fun p => [GPIOx, p]) ++
          [[GPIOx, 0x00], [IODIRx, 0xFF]] ∧
          m.data = ps.getD (14 * limit) 0 ∧ popcount m.data = 1) := by
  have hchain : ∀ i < 14 * limit,
      popcount ((payloads limit).getD i 0) = 1 ∧ popcount ((payloads limit).getD (i + 1) 0) = 1 ∧
      (payloads limit).getD (i + 1) 0 =
        if i % 14 < 7 then rotateLeft ((payloads limit).getD i 0)
        else rotateRight ((payloads limit).getD i 0) := by
    intro i hi
    rw [payloads_getD limit i (by omega), payloads_getD limit (i + 1) (by omega)]
    have h := sweepPayloads_step (i % 14) (Nat.mod_lt _ (by decide))
    rw [show (i + 1) % 14 = (i % 14 + 1) % 14 by omega]
    exact h
  have hall1 : ∀ p ∈ payloads limit, popcount p = 1 := by
    intro p hp
    obtain ⟨j, hj, hjp⟩ := List.getElem_of_mem hp
    have hj1 : j < 14 * limit + 1 := by rw [payloads_length] at hj; exact hj
    have hg : (payloads limit).getD j 0 = sweepPayloads.getD (j % 14) 0 :=
      payloads_getD limit j (by omega)
    have hget : (payloads limit).getD j 0 = p := by
      rw [← hjp]
      simp [List.getD_eq_getElem?_getD, List.getElem?_eq_getElem, hj]
    rw [← hget, hg]
    exact (sweepPayloads_step (j % 14) (Nat.mod_lt _ (by decide))).1
  have hlast : (payloads limit).getD (14 * limit) 0 = 1 := by
    rw [payloads_getD limit (14 * limit) (by omega)]
    simp [sweepPayloads]
  refine ⟨payloads limit, payloads_length limit, ?_, hchain, hall1, ?_, ?_⟩
  · rw [payloads_getD limit 0 (by omega)]
    rfl
  · rcases mainWith_run limit env ho hi with
      ⟨-, hr⟩ | ⟨k, m, pre, fd, bs, -, -, hr, ht, hlen, hp, -⟩
    · rw [hr]
      simp only [Result.trace]
      rw [writesOf_nominalTrace]
    · rw [hr]
      simp only [Result.trace]
      rw [writes_take limit env k m pre fd bs ht hlen hp, writesOf_nominalTrace]
      exact List.take_prefix _ _
  · intro hw
    rcases mainWith_run limit env ho hi with ⟨-, hr⟩ | ⟨k, m, pre, fd, bs, hk, hff, -⟩
    · exact ⟨_, hr, writesOf_nominalTrace _ _, hlast.symm, (by decide : popcount 1 = 1)⟩
    · exact absurd (by rw [hw k hk]; exact toInt32_two) hff.2

theorem single_bit_invariant_witness :
    (0 ≤ (nominalEnv 3).openResult ∧ 0 ≤ (nominalEnv 3).ioctlResult) ∧
    (∃ ps : List Nat,
      ps.length = 14 * 2 + 1 ∧
      ps.getD 0 0 = PATTERN ∧
      (∀ i < 14 * 2,
        popcount (ps.getD i 0) = 1 ∧ popcount (ps.getD (i + 1) 0) = 1 ∧
        ps.getD (i + 1) 0 =
          if i % 14 < 7 then rotateLeft (ps.getD i 0) else rotateRight (ps.getD i 0)) ∧
      (∀ p ∈ ps, popcount p = 1) ∧
      writesOf (mainWith 2 (nominalEnv 3)).trace <+:
        [[IODIRx, 0x00]] ++ ps.map (fun p => [GPIOx, p]) ++
          [[GPIOx, 0x00], [IODIRx, 0xFF]] ∧
      ((∀ k < 14 * 2 + 4, (nominalEnv 3).writeResult k = 2) →
        ∃ m, mainWith 2 (nominalEnv 3) = .exited 0 m ∧
          writesOf m.trace =
            [[IODIRx, 0x00]] ++ ps.map (fun p => [GPIOx, p]) ++
          [[GPIOx, 0x00], [IODIRx, 0xFF]] ∧
          m.data = ps.getD (14 * 2) 0 ∧ popcount m.data = 1)) :=
  ⟨⟨by decide, by decide⟩, single_bit_invariant 2 (nominalEnv 3) (by decide) (by decide)⟩

set_option maxRecDepth 100000 in
/-- C7: for every byte with exactly one bit set, the right rotation undoes the
left rotation and the left rotation undoes the right rotation. -/
theorem rotation_self_inverse (v : Nat) (hv : v < 256) (h1 : popcount v = 1) :
    rotateRight (rotateLeft v) = v ∧ rotateLeft (rotateRight v) = v := by
  revert v
  decide

theorem rotation_self_inverse_witness :
    (0x10 < 256 ∧ popcount 0x10 = 1) ∧
    (rotateRight (rotateLeft 0x10) = 0x10 ∧ rotateLeft (rotateRight 0x10) = 0x10) :=
  ⟨⟨by decide, by decide⟩, rotation_self_inverse 0x10 (by decide) (by decide)⟩

set_option maxRecDepth 100000 in
/-- C8: for every byte, eight left rotations give the byte back, and so do
eight right rotations. -/
theorem rotation_period_eight (v : Nat) (hv : v < 256) :
    rotateLeft^[8] v = v ∧ rotateRight^[8] v = v := by
  revert v
  decide

theorem rotation_period_eight_witness :
    0xA5 < 256 ∧
    (rotateLeft^[8] 0xA5 = 0xA5 ∧ rotateRight^[8] 0xA5 = 0xA5) :=
  ⟨by decide, rotation_period_eight 0xA5 (by decide)⟩

/-- C9: `dumpbin` emits exactly ten characters: the bits 7, 6, 5, 4 of the byte
as `'0'`/`'1'`, a space, the bits 3, 2, 1, 0, and a trailing space; `0b00000001`
gives `"0000 0001 "`, `0b10000000` gives `"1000 0000 "`, and distinct bytes give
distinct texts. -/
theorem dumpbin_rendering (b : Nat) (hb : b < 256) :
    (∀ m, dumpbin b m = { m with trace := m.trace ++ (dumpbinText b).map Event.putchar }) ∧
      dumpbinText b =
        [if b.testBit 7 then '1' else '0', if b.testBit 6 then '1' else '0',
          if b.testBit 5 then '1' else '0', if b.testBit 4 then '1' else '0', ' ',
          if b.testBit 3 then '1' else '0', if b.testBit 2 then '1' else '0',
          if b.testBit 1 then '1' else '0', if b.testBit 0 then '1' else '0', ' '] ∧
      (dumpbinText b).length = 10 ∧
      dumpbinText 0b00000001 = "0000 0001 ".toList ∧
      dumpbinText 0b10000000 = "1000 0000 ".toList ∧
      ∀ b1, b1 < 256 → dumpbinText b = dumpbinText b1 → b = b1 := by
  refine ⟨?_, ?_, ?_, ?_, ?_, ?_⟩
  · intro m
    rw [dumpbin_eq, dumpbinText_eq]
    rfl
  · rw [dumpbinText_eq]
    simp only [renderedText, bitChar_eq]
  · rw [dumpbinText_eq]
    rfl
  · rw [dumpbinText_eq]
    decide
  · rw [dumpbinText_eq]
    decide
  · intro b1 hb1 h
    rw [dumpbinText_eq, dumpbinText_eq] at h
    rw [← readBack_renderedText b hb, ← readBack_renderedText b1 hb1, h]

theorem dumpbin_rendering_witness :
    0x5A < 256 ∧
    ((∀ m, dumpbin 0x5A m = { m with trace := m.trace ++ (dumpbinText 0x5A).map Event.putchar }) ∧
      dumpbinText 0x5A =
        [if 0x5A.testBit 7 then '1' else '0', if 0x5A.testBit 6 then '1' else '0',
          if 0x5A.testBit 5 then '1' else '0', if 0x5A.testBit 4 then '1' else '0', ' ',
          if 0x5A.testBit 3 then '1' else '0', if 0x5A.testBit 2 then '1' else '0',
          if 0x5A.testBit 1 then '1' else '0', if 0x5A.testBit 0 then '1' else '0', ' '] ∧
      (dumpbinText 0x5A).length = 10 ∧
      dumpbinText 0b00000001 = "0000 0001 ".toList ∧
      dumpbinText 0b10000000 = "1000 0000 ".toList ∧
      ∀ b1, b1 < 256 → dumpbinText 0x5A = dumpbinText b1 → 0x5A = b1) :=
  ⟨by decide, dumpbin_rendering 0x5A (by decide)⟩

/-- C10: in the nominal run, for every outer repeat count, the payloads of the
data-register transfers before the clear are `limit` repetitions of
`01 02 04 08 10 20 40 80 40 20 10 08 04 02` followed by `01`; the pattern is
back at its initial value at the end of every outer iteration (seven left
rotations followed by seven right rotations give `PATTERN` back), and no two
consecutive payloads are equal. -/
theorem sweep_payload_sequence (limit : Nat) (env : Env) (ho : 0 ≤ env.openResult)
    (hi : 0 ≤ env.ioctlResult) (hw : ∀ k, env.writeResult k = 2) :
    writesOf (mainWith limit env).trace =
        [[IODIRx, 0x00]] ++
        ((List.replicate limit
            [0x01, 0x02, 0x04, 0x08, 0x10, 0x20, 0x40, 0x80, 0x40, 0x20, 0x10, 0x08, 0x04,
              0x02]).flatten ++ [0x01]).map (fun p => [GPIOx, p]) ++
        [[GPIOx, 0x00], [IODIRx, 0xFF]] ∧
      rotateRight^[7] (rotateLeft^[7] PATTERN) = PATTERN ∧
      (∀ i ≤ limit,
        ((List.replicate limit
            [0x01, 0x02, 0x04, 0x08, 0x10, 0x20, 0x40, 0x80, 0x40, 0x20, 0x10, 0x08, 0x04,
              0x02]).flatten ++ [0x01]).getD (14 * i) 0 = PATTERN) ∧
      List.Chain' (fun a b => a ≠ b)
        ((List.replicate limit
            [0x01, 0x02, 0x04, 0x08, 0x10, 0x20, 0x40, 0x80, 0x40, 0x20, 0x10, 0x08, 0x04,
              0x02]).flatten ++ [0x01]) := by
  refine ⟨?_, by decide, ?_, payloads_chain limit⟩
  · rw [mainWith_nominal limit env ho hi (toInt32_of_two env hw)]
    exact writesOf_nominalTrace _ _
  · intro i hi
    have h := payloads_getD limit (14 * i) (by omega)
    rw [Nat.mul_mod_right] at h
    exact h

theorem sweep_payload_sequence_witness :
    (0 ≤ (nominalEnv 3).openResult ∧ 0 ≤ (nominalEnv 3).ioctlResult ∧ ∀ k, (nominalEnv 3).writeResult k = 2) ∧
    (writesOf (mainWith 2 (nominalEnv 3)).trace =
        [[IODIRx, 0x00]] ++
        ((List.replicate 2
            [0x01, 0x02, 0x04, 0x08, 0x10, 0x20, 0x40, 0x80, 0x40, 0x20, 0x10, 0x08, 0x04,
              0x02]).flatten ++ [0x01]).map (fun p => [GPIOx, p]) ++
        [[GPIOx, 0x00], [IODIRx, 0xFF]] ∧
      rotateRight^[7] (rotateLeft^[7] PATTERN) = PATTERN ∧
      (∀ i ≤ 2,
        ((List.replicate 2
            [0x01, 0x02, 0x04, 0x08, 0x10, 0x20, 0x40, 0x80, 0x40, 0x20, 0x10, 0x08, 0x04,
              0x02]).flatten ++ [0x01]).getD (14 * i) 0 = PATTERN) ∧
      List.Chain' (fun a b => a ≠ b)
        ((List.replicate 2
            [0x01, 0x02, 0x04, 0x08, 0x10, 0x20, 0x40, 0x80, 0x40, 0x20, 0x10, 0x08, 0x04,
              0x02]).flatten ++ [0x01])) :=
  ⟨⟨by decide, by decide, fun _ => rfl⟩,
    sweep_payload_sequence 2 (nominalEnv 3) (by decide) (by decide) (fun _ => rfl)⟩

end LedShift
